import Mathlib

/-!
Shallow embedding of the physical memory manager (PMM) of
`kernel/vm/pmm.cpp` and `kernel/vm/pmm_arena.h`.

Modelling conventions:
* Physical addresses, sizes and counts are `Nat`; the only place where
  unsigned wraparound is observable in the claims is the `(paddr_t)-1`
  sentinel of `vm_page_to_paddr`, modelled explicitly as `2 ^ 64 - 1`.
* A `vm_page_t*` handle is modelled as a pair `(aid, idx)` where `aid`
  is the position of the owning arena in the registry list (standing
  for the page-array base pointer that the C++ code compares against)
  and `idx` the index into that arena's page array.
* The global mutable `arena_list` becomes explicit state passing: every
  operation takes the registry (a `List PmmArena`) and returns the
  updated registry alongside its result.
* A `DEBUG_ASSERT` failure is a fatal halt; functions that can hit one
  return `Option`, with `none` meaning the assert fired.
* The per-frame free/allocated state is implied by free-list
  membership, exactly as the spec's data model states; an arena's free
  list is the list of free page indices.
* `PmmArena`'s method bodies live in `pmm_arena.cpp`, which is not part
  of the provided sources; they are modelled from the spec (each such
  definition says so in its doc comment).  Everything in `pmm.cpp` and
  `pmm_arena.h` is translated directly from the source.
-/

/-- PAGE_SIZE_SHIFT of the target platform (4 KiB pages). -/
def PAGE_SIZE_SHIFT : Nat := 12

/-- PAGE_SIZE = 1 << PAGE_SIZE_SHIFT. -/
def PAGE_SIZE : Nat := 2 ^ PAGE_SIZE_SHIFT

/-- ROUNDDOWN(addr, PAGE_SIZE). -/
def ROUNDDOWN_PAGE (addr : Nat) : Nat := addr / PAGE_SIZE * PAGE_SIZE

/-- Sentinel returned by `vm_page_to_paddr` for a page owned by no arena:
`(paddr_t)-1` on a 64-bit machine. -/
def PADDR_INVALID : Nat := 2 ^ 64 - 1

/-- pmm_arena_info_t: registration record for one arena.  Of the `flags`
word only the PMM_ARENA_FLAG_KMAP bit is consulted by this code, so it is
modelled as the Boolean `kmapFlag`. -/
structure PmmArenaInfo where
  base : Nat
  size : Nat
  kmapFlag : Bool
  priority : Nat
  deriving Repr, DecidableEq

/-- PmmArena: one contiguous physical region.  `freeList` is the list of
free page indices (head = head of the intrusive free list); a frame is
free iff its index is a member. -/
structure PmmArena where
  info : PmmArenaInfo
  freeList : List Nat
  deriving Repr, DecidableEq

/-- A `vm_page_t*` handle: position of the owning arena in the registry
plus the index into that arena's page array. -/
structure Page where
  aid : Nat
  idx : Nat
  deriving Repr, DecidableEq

/-- Number of entries of the arena's page array: size / PAGE_SIZE. -/
def PmmArena.numPages (a : PmmArena) : Nat := a.info.size / PAGE_SIZE

/-- PmmArena::address_in_arena (pmm_arena.h):
`address >= base && address <= base + size - 1`. -/
def PmmArena.address_in_arena (a : PmmArena) (address : Nat) : Bool :=
  decide (a.info.base ≤ address) &&
    decide (address ≤ a.info.base + a.info.size - 1)

/-- PmmArena::page_belongs_to_arena (pmm_arena.h): the pointer-range test
against this arena's page array, in the handle model: the handle's arena
position is `j` and its index is inside the array. -/
def PmmArena.page_belongs_to_arena (a : PmmArena) (j : Nat) (p : Page) : Bool :=
  decide (p.aid = j) && decide (p.idx < a.numPages)

/-- PmmArena::page_address_from_arena (pmm_arena.h):
`((page - page_array_) / VM_PAGE_STRUCT_SIZE) * PAGE_SIZE + base`, i.e.
index * PAGE_SIZE + base for a valid handle. -/
def PmmArena.page_address_from_arena (a : PmmArena) (p : Page) : Nat :=
  p.idx * PAGE_SIZE + a.info.base

/-- Modelled from the spec: `PmmArena::BootAllocArray` (pmm_arena.cpp is
not among the sources).  Marks every frame free and inserts all of them
into the free list in ascending address order; free count = total. -/
def PmmArena.BootAllocArray (info : PmmArenaInfo) : PmmArena :=
  ⟨info, List.range (info.size / PAGE_SIZE)⟩

/-- Modelled from the spec: `PmmArena::AllocPage` (pmm_arena.cpp is not
among the sources).  Removes and returns the head of the free list, or
fails when the list is empty; the returned physical address is the
frame's address. -/
def PmmArena.AllocPage (a : PmmArena) : Option (PmmArena × Nat) :=
  match a.freeList with
  | [] => none
  | i :: rest => some (⟨a.info, rest⟩, i)

/-- Modelled from the spec: `PmmArena::AllocPages` (pmm_arena.cpp is not
among the sources).  Repeatedly pops the free list until `count` frames
are collected or the list is exhausted; returns the collected indices. -/
def PmmArena.AllocPages (a : PmmArena) (count : Nat) : PmmArena × List Nat :=
  (⟨a.info, a.freeList.drop count⟩, a.freeList.take count)

/-- Modelled from the spec: `PmmArena::AllocSpecific` (pmm_arena.cpp is
not among the sources).  Computes the frame index for the address (the
caller guarantees `address_in_arena`); if that frame is free it is
removed from the free list and returned, else the answer is `none`. -/
def PmmArena.AllocSpecific (a : PmmArena) (pa : Nat) : Option (PmmArena × Nat) :=
  let idx := (pa - a.info.base) / PAGE_SIZE
  if a.freeList.contains idx then some (⟨a.info, a.freeList.erase idx⟩, idx)
  else none

/-- Whether the `count` frames starting at index `i` are all free. -/
def PmmArena.runFree (a : PmmArena) (i count : Nat) : Bool :=
  (List.range count).all (fun j => a.freeList.contains (i + j))

/-- First index `i` of the page array whose address satisfies the
alignment and such that frames `i .. i+count-1` all exist and are free. -/
def PmmArena.findRun (a : PmmArena) (count alignment_log2 : Nat) : Option Nat :=
  (List.range a.numPages).find? (fun i =>
    decide (i + count ≤ a.numPages) &&
      decide ((a.info.base + i * PAGE_SIZE) % 2 ^ alignment_log2 = 0) &&
      a.runFree i count)

/-- Modelled from the spec: `PmmArena::AllocContiguous` (pmm_arena.cpp is
not among the sources).  Scans the frame array for the first aligned,
fully free run of `count` frames; on success removes all of them from the
free list and returns the run's base address plus the indices in
ascending order; on failure leaves all state unchanged. -/
def PmmArena.AllocContiguous (a : PmmArena) (count alignment_log2 : Nat) :
    Option (PmmArena × Nat × List Nat) :=
  match a.findRun count alignment_log2 with
  | none => none
  | some i =>
      some (⟨a.info, (List.range count).foldl (fun l j => l.erase (i + j)) a.freeList⟩,
            a.info.base + i * PAGE_SIZE,
            (List.range count).map (fun j => i + j))

/-- Modelled from the spec: `PmmArena::FreePage` (pmm_arena.cpp is not
among the sources).  Fails (status < 0) when the frame is not part of
this arena or is already free; otherwise reinserts it into the free list
(head insertion) and succeeds. -/
def PmmArena.FreePage (a : PmmArena) (j : Nat) (p : Page) : Option PmmArena :=
  if a.page_belongs_to_arena j p && !(a.freeList.contains p.idx) then
    some ⟨a.info, p.idx :: a.freeList⟩
  else none

/-- The global `arena_list`, kept in priority order by `pmm_add_arena`. -/
abbrev Registry := List PmmArena

/-- Whether `pmm_alloc_page`/`pmm_alloc_pages`/`pmm_alloc_contiguous`
process this arena: it is skipped iff the caller passed
PMM_ALLOC_FLAG_KMAP and the arena lacks PMM_ARENA_FLAG_KMAP. -/
def eligible (kmapOnly : Bool) (a : PmmArena) : Bool :=
  !kmapOnly || a.info.kmapFlag

/-- Loop of `vm_page_to_paddr` (pmm.cpp): first arena whose
`page_belongs_to_arena` holds answers with `page_address_from_arena`;
falling off the list yields `(paddr_t)-1`.  `j` is the position of the
current arena in the registry. -/
def vm_page_to_paddr_loop : Registry → Nat → Page → Nat
  | [], _, _ => PADDR_INVALID
  | a :: rest, j, p =>
      if a.page_belongs_to_arena j p then a.page_address_from_arena p
      else vm_page_to_paddr_loop rest (j + 1) p

/-- vm_page_to_paddr (pmm.cpp). -/
def vm_page_to_paddr (regs : Registry) (p : Page) : Nat :=
  vm_page_to_paddr_loop regs 0 p

/-- Loop of `paddr_to_vm_page` (pmm.cpp): first arena whose
`address_in_arena` holds answers with the page at index
`(addr - base) / PAGE_SIZE`; falling off the list yields NULL. -/
def paddr_to_vm_page_loop : Registry → Nat → Nat → Option Page
  | [], _, _ => none
  | a :: rest, j, addr =>
      if a.address_in_arena addr then
        some ⟨j, (addr - a.info.base) / PAGE_SIZE⟩
      else paddr_to_vm_page_loop rest (j + 1) addr

/-- paddr_to_vm_page (pmm.cpp). -/
def paddr_to_vm_page (regs : Registry) (addr : Nat) : Option Page :=
  paddr_to_vm_page_loop regs 0 addr

/-- Walk of `pmm_add_arena` (pmm.cpp): insert the new arena before the
first registered arena whose priority is strictly greater, else push it
at the end of the list. -/
def add_arena_walk (arena : PmmArena) : Registry → Registry
  | [] => [arena]
  | a :: rest =>
      if a.info.priority > arena.info.priority then arena :: a :: rest
      else a :: add_arena_walk arena rest

/-- pmm_add_arena (pmm.cpp).  The DEBUG_ASSERTs that `base` and `size`
are page aligned and `size > 0` constrain registration inputs; the
insert itself is unconditional.  The freshly inserted arena's
`BootAllocArray` runs as part of registration. -/
def pmm_add_arena (regs : Registry) (info : PmmArenaInfo) : Registry :=
  add_arena_walk (PmmArena.BootAllocArray info) regs

/-- Loop of `pmm_alloc_page` (pmm.cpp): walk the arenas in order, skip
non-KMAP arenas when the KMAP flag was passed, return the first
successful `AllocPage` (the page handle and the physical address the
arena wrote through `pa`). -/
def pmm_alloc_page_loop : Registry → Nat → Bool → Registry × Option (Page × Nat)
  | [], _, _ => ([], none)
  | a :: rest, j, kmapOnly =>
      if eligible kmapOnly a then
        match a.AllocPage with
        | some (a', i) => (a' :: rest, some (⟨j, i⟩, i * PAGE_SIZE + a.info.base))
        | none =>
            let r := pmm_alloc_page_loop rest (j + 1) kmapOnly
            (a :: r.1, r.2)
      else
        let r := pmm_alloc_page_loop rest (j + 1) kmapOnly
        (a :: r.1, r.2)

/-- pmm_alloc_page (pmm.cpp). -/
def pmm_alloc_page (regs : Registry) (kmapOnly : Bool) :
    Registry × Option (Page × Nat) :=
  pmm_alloc_page_loop regs 0 kmapOnly

/-- Loop of `pmm_alloc_pages` (pmm.cpp): walk the arenas in order, skip
non-KMAP arenas when the KMAP flag was passed; the first arena whose
`AllocPages` returns a non-zero count ends the walk with that count. -/
def pmm_alloc_pages_loop : Registry → Nat → Nat → Bool → Registry × Nat × List Page
  | [], _, _, _ => ([], 0, [])
  | a :: rest, j, count, kmapOnly =>
      if eligible kmapOnly a then
        let r := a.AllocPages count
        if r.2.length > 0 then (r.1 :: rest, r.2.length, r.2.map (Page.mk j))
        else
          let s := pmm_alloc_pages_loop rest (j + 1) count kmapOnly
          (r.1 :: s.1, s.2)
      else
        let s := pmm_alloc_pages_loop rest (j + 1) count kmapOnly
        (a :: s.1, s.2)

/-- pmm_alloc_pages (pmm.cpp).  `listProvided` models whether the caller
passed a non-NULL output list; DEBUG_ASSERT(list) makes a NULL list
fatal (`none`).  Result: updated registry, allocated count, pages added
to the list. -/
def pmm_alloc_pages (regs : Registry) (count : Nat) (kmapOnly : Bool)
    (listProvided : Bool) : Option (Registry × Nat × List Page) :=
  if !listProvided then none
  else if count = 0 then some (regs, 0, [])
  else some (pmm_alloc_pages_loop regs 0 count kmapOnly)

/-- Inner while loop of `pmm_alloc_range` (pmm.cpp): while fewer than
`count` pages are allocated and the current address is inside this
arena, `AllocSpecific` the address; a failure breaks out, a success
appends the page to the output list (when one was provided) and
advances the address by one page.  `rem` is `count - allocated`;
returns the updated arena, the next address, the pages appended and the
number of pages allocated here. -/
def pmm_alloc_range_inner (j : Nat) (listProvided : Bool) :
    PmmArena → Nat → Nat → PmmArena × Nat × List Page × Nat
  | a, address, 0 => (a, address, [], 0)
  | a, address, rem + 1 =>
      if a.address_in_arena address then
        match a.AllocSpecific address with
        | none => (a, address, [], 0)
        | some (a', i) =>
            let r := pmm_alloc_range_inner j listProvided a' (address + PAGE_SIZE) rem
            (r.1, r.2.1, (if listProvided then [⟨j, i⟩] else []) ++ r.2.2.1, r.2.2.2 + 1)
      else (a, address, [], 0)

/-- Outer loop of `pmm_alloc_range` (pmm.cpp): walk the arenas in order,
running the inner loop on each; stop as soon as `count` pages have been
allocated. -/
def pmm_alloc_range_loop (listProvided : Bool) :
    Registry → Nat → Nat → Nat → Registry × List Page × Nat
  | [], _, _, _ => ([], [], 0)
  | a :: rest, j, address, rem =>
      let r := pmm_alloc_range_inner j listProvided a address rem
      if rem - r.2.2.2 = 0 then (r.1 :: rest, r.2.2.1, r.2.2.2)
      else
        let s := pmm_alloc_range_loop listProvided rest (j + 1) r.2.1 (rem - r.2.2.2)
        (r.1 :: s.1, r.2.2.1 ++ s.2.1, r.2.2.2 + s.2.2)

/-- pmm_alloc_range (pmm.cpp).  `listProvided` models whether the caller
passed a non-NULL output list; pages are appended only when it did, the
allocation itself happens regardless.  Result: updated registry,
allocated count, pages added to the list. -/
def pmm_alloc_range (regs : Registry) (address count : Nat)
    (listProvided : Bool) : Registry × Nat × List Page :=
  if count = 0 then (regs, 0, [])
  else
    let r := pmm_alloc_range_loop listProvided regs 0 (ROUNDDOWN_PAGE address) count
    (r.1, r.2.2, r.2.1)

/-- Loop of `pmm_alloc_contiguous` (pmm.cpp).  Faithful to the source's
`count = a.AllocContiguous(count, ...)`: the running `count` is
overwritten by each eligible arena's return value (the number of pages
it allocated), and the walk returns as soon as that value is positive.
Result: updated registry, returned count, the run's base address (when
one was returned) and the pages added to the list. -/
def pmm_alloc_contiguous_loop (kmapOnly : Bool) (alignment_log2 : Nat) :
    Registry → Nat → Nat → Registry × Nat × Option Nat × List Page
  | [], _, _ => ([], 0, none, [])
  | a :: rest, j, count =>
      if eligible kmapOnly a then
        match a.AllocContiguous count alignment_log2 with
        | some (a', pa, idxs) =>
            if idxs.length > 0 then
              (a' :: rest, idxs.length, some pa, idxs.map (Page.mk j))
            else
              let s := pmm_alloc_contiguous_loop kmapOnly alignment_log2 rest (j + 1)
                idxs.length
              (a' :: s.1, s.2)
        | none =>
            let s := pmm_alloc_contiguous_loop kmapOnly alignment_log2 rest (j + 1) 0
            (a :: s.1, s.2)
      else
        let s := pmm_alloc_contiguous_loop kmapOnly alignment_log2 rest (j + 1) count
        (a :: s.1, s.2)

/-- pmm_alloc_contiguous (pmm.cpp): for `count = 0` return 0 at once;
clamp the alignment to at least PAGE_SIZE_SHIFT; then run the arena
walk. -/
def pmm_alloc_contiguous (regs : Registry) (count : Nat) (kmapOnly : Bool)
    (alignment_log2 : Nat) : Registry × Nat × Option Nat × List Page :=
  if count = 0 then (regs, 0, none, [])
  else
    let al := if alignment_log2 < PAGE_SIZE_SHIFT then PAGE_SIZE_SHIFT
              else alignment_log2
    pmm_alloc_contiguous_loop kmapOnly al regs 0 count

/-- page_is_free for a handle: membership of the index in the owning
arena's free list (the state a frame's VM_PAGE_STATE flag mirrors); a
handle pointing into no registered arena is never free. -/
def page_is_free (regs : Registry) (p : Page) : Bool :=
  match regs.get? p.aid with
  | some a => a.freeList.contains p.idx
  | none => false

/-- Arena scan of `pmm_free` (pmm.cpp): first arena whose `FreePage`
succeeds (status >= 0) takes the frame back; `none` when every arena
refuses. -/
def pmm_free_scan : Registry → Nat → Page → Option Registry
  | [], _, _ => none
  | a :: rest, j, p =>
      match a.FreePage j p with
      | some a' => some (a' :: rest)
      | none => (pmm_free_scan rest (j + 1) p).map (fun r => a :: r)

/-- Main loop of `pmm_free` (pmm.cpp): pop each page off the input list;
DEBUG_ASSERT(!page_is_free(page)) is fatal (`none`) on an already-free
page; then the first arena that accepts the page frees it and the count
goes up — a page no arena accepts is simply skipped. -/
def pmm_free_go : Registry → List Page → Option (Registry × Nat)
  | regs, [] => some (regs, 0)
  | regs, p :: ps =>
      if page_is_free regs p then none
      else
        match pmm_free_scan regs 0 p with
        | some regs' => (pmm_free_go regs' ps).map (fun r => (r.1, r.2 + 1))
        | none => pmm_free_go regs ps

/-- pmm_free (pmm.cpp). -/
def pmm_free (regs : Registry) (pages : List Page) : Option (Registry × Nat) :=
  pmm_free_go regs pages

/-! ## Helper lemmas -/

/-- The physical address of a valid handle: if the registry holds arena
`a` at the handle's arena position and the index is inside the page
array, `vm_page_to_paddr` answers with that arena's address
arithmetic. -/
theorem vm_page_to_paddr_loop_of_get :
    ∀ (regs : Registry) (c t idx : Nat) (a : PmmArena),
      regs[t]? = some a → idx < a.numPages →
      vm_page_to_paddr_loop regs c ⟨c + t, idx⟩ = idx * PAGE_SIZE + a.info.base
  | [], _, t, _, _, h, _ => by simp at h
  | b :: rest, c, 0, idx, a, h, hidx => by
      simp at h
      subst h
      simp [vm_page_to_paddr_loop, PmmArena.page_belongs_to_arena, hidx,
        PmmArena.page_address_from_arena]
  | b :: rest, c, t + 1, idx, a, h, hidx => by
      simp at h
      have ih := vm_page_to_paddr_loop_of_get rest (c + 1) t idx a h hidx
      have hne : ¬ (c + (t + 1) = c) := by omega
      simp [vm_page_to_paddr_loop, PmmArena.page_belongs_to_arena, hne]
      have hct : c + 1 + t = c + (t + 1) := by omega
      rw [hct] at ih
      exact ih

/-- If no arena of the suffix can own the handle, the translation loop
falls through to the sentinel. -/
theorem vm_page_to_paddr_loop_none :
    ∀ (regs : Registry) (c : Nat) (p : Page),
      (∀ t a, regs[t]? = some a → p.aid = c + t → a.numPages ≤ p.idx) →
      vm_page_to_paddr_loop regs c p = PADDR_INVALID
  | [], _, _, _ => rfl
  | b :: rest, c, p, h => by
      have hcond : b.page_belongs_to_arena c p = false := by
        simp [PmmArena.page_belongs_to_arena]
        intro h1
        have := h 0 b (by simp) (by omega)
        omega
      simp [vm_page_to_paddr_loop, hcond]
      exact vm_page_to_paddr_loop_none rest (c + 1) p (fun t a ht hp => by
        have := h (t + 1) a (by simpa using ht) (by omega)
        exact this)

/-- The inner `pmm_alloc_range` loop allocates identically whether or
not an output list was provided; without one it records no pages. -/
theorem pmm_alloc_range_inner_false (j : Nat) :
    ∀ (rem : Nat) (a : PmmArena) (address : Nat),
      pmm_alloc_range_inner j false a address rem =
        ((pmm_alloc_range_inner j true a address rem).1,
         (pmm_alloc_range_inner j true a address rem).2.1, [],
         (pmm_alloc_range_inner j true a address rem).2.2.2) := by
  intro rem
  induction rem with
  | zero => intro a address; rfl
  | succ n ih =>
      intro a address
      simp only [pmm_alloc_range_inner]
      cases haddr : a.address_in_arena address
      · simp
      · cases hspec : a.AllocSpecific address with
        | none => simp
        | some r => simp [ih]

/-- The outer `pmm_alloc_range` loop allocates identically whether or
not an output list was provided; without one it records no pages. -/
theorem pmm_alloc_range_loop_false :
    ∀ (regs : Registry) (j address rem : Nat),
      pmm_alloc_range_loop false regs j address rem =
        ((pmm_alloc_range_loop true regs j address rem).1, [],
         (pmm_alloc_range_loop true regs j address rem).2.2) := by
  intro regs
  induction regs with
  | nil => intro j address rem; rfl
  | cons a rest ih =>
      intro j address rem
      simp only [pmm_alloc_range_loop, pmm_alloc_range_inner_false]
      by_cases hz : rem - (pmm_alloc_range_inner j true a address rem).2.2.2 = 0
      · simp [hz]
      · simp [hz, ih]

/-! ## Claim theorems -/

/-- C8: for `count = 0`, each of `pmm_alloc_pages`, `pmm_alloc_range`
and `pmm_alloc_contiguous` returns 0 immediately, leaving the registry
(and so every arena's free list and frame states) unchanged and
recording no pages. -/
theorem alloc_zero_count_is_noop (regs : Registry) (kmapOnly listP : Bool)
    (address alignment_log2 : Nat) :
    pmm_alloc_pages regs 0 kmapOnly true = some (regs, 0, []) ∧
    pmm_alloc_range regs address 0 listP = (regs, 0, []) ∧
    pmm_alloc_contiguous regs 0 kmapOnly alignment_log2 = (regs, 0, none, []) := by
  refine ⟨?_, ?_, ?_⟩ <;> simp [pmm_alloc_pages, pmm_alloc_range, pmm_alloc_contiguous]

/-- C9: a frame handle that belongs to no registered arena (its arena
slot holds no arena whose page array is large enough) translates to the
sentinel `(paddr_t)-1`, not to any arena's address. -/
theorem vm_page_to_paddr_unowned (regs : Registry) (p : Page)
    (h : ∀ a, regs[p.aid]? = some a → a.numPages ≤ p.idx) :
    vm_page_to_paddr regs p = PADDR_INVALID := by
  apply vm_page_to_paddr_loop_none
  intro t a ht hp
  have htp : t = p.aid := by omega
  subst htp
  exact h a ht

/-- Witness for C9: a handle into arena slot 5 of a one-arena registry
is owned by nobody and translates to `(paddr_t)-1`. -/
theorem vm_page_to_paddr_unowned_witness :
    vm_page_to_paddr [⟨⟨0, PAGE_SIZE, false, 0⟩, [0]⟩] ⟨5, 0⟩ = PADDR_INVALID :=
  vm_page_to_paddr_unowned _ _ (fun a h => by simp at h)

/-- C10: `pmm_alloc_pages` hits DEBUG_ASSERT(list) on a NULL output list
(fatal), while `pmm_alloc_range` accepts one: it produces the same
updated registry and the same count as with a list, merely recording no
pages. -/
theorem alloc_range_accepts_null_list (regs : Registry)
    (address count : Nat) (kmapOnly : Bool) :
    pmm_alloc_pages regs count kmapOnly false = none ∧
    (pmm_alloc_range regs address count false).1 =
      (pmm_alloc_range regs address count true).1 ∧
    (pmm_alloc_range regs address count false).2.1 =
      (pmm_alloc_range regs address count true).2.1 ∧
    (pmm_alloc_range regs address count false).2.2 = [] := by
  refine ⟨rfl, ?_⟩
  by_cases hc : count = 0
  · simp [pmm_alloc_range, hc]
  · simp [pmm_alloc_range, hc, pmm_alloc_range_loop_false]

/-- C1: evaluation at the failing input.  Arena 1 (base PAGE_SIZE, one
free page) holds a suitable page-aligned run of 1 page and both arenas
are eligible, yet `pmm_alloc_contiguous` for 1 page returns count 0 and
no pages, because the source overwrites `count` with arena 0's failed
return value (0) before asking arena 1. -/
theorem pmm_alloc_contiguous_clobbered_count :
    (PmmArena.AllocContiguous ⟨⟨PAGE_SIZE, PAGE_SIZE, false, 1⟩, [0]⟩ 1
        PAGE_SIZE_SHIFT).isSome = true ∧
    eligible false ⟨⟨0, PAGE_SIZE, false, 0⟩, []⟩ = true ∧
    pmm_alloc_contiguous
        [⟨⟨0, PAGE_SIZE, false, 0⟩, []⟩, ⟨⟨PAGE_SIZE, PAGE_SIZE, false, 1⟩, [0]⟩]
        1 false 0 =
      ([⟨⟨0, PAGE_SIZE, false, 0⟩, []⟩, ⟨⟨PAGE_SIZE, PAGE_SIZE, false, 1⟩, [0]⟩],
       0, none, []) := by
  refine ⟨by decide, by decide, by decide⟩

/-- Membership in the insertion walk: exactly the new arena plus the old
registry. -/
theorem mem_add_arena_walk (arena x : PmmArena) :
    ∀ regs : Registry, x ∈ add_arena_walk arena regs ↔ x = arena ∨ x ∈ regs := by
  intro regs
  induction regs with
  | nil => simp [add_arena_walk]
  | cons a rest ih =>
      by_cases h : a.info.priority > arena.info.priority
      · simp [add_arena_walk, h]
      · simp [add_arena_walk, h, ih]
        tauto

/-- The insertion walk keeps the registry sorted by ascending
priority. -/
theorem add_arena_walk_pairwise (arena : PmmArena) :
    ∀ regs : Registry,
      regs.Pairwise (fun a b => a.info.priority ≤ b.info.priority) →
      (add_arena_walk arena regs).Pairwise
        (fun a b => a.info.priority ≤ b.info.priority) := by
  intro regs
  induction regs with
  | nil => intro _; simp [add_arena_walk]
  | cons a rest ih =>
      intro hs
      rw [List.pairwise_cons] at hs
      obtain ⟨ha, hrest⟩ := hs
      by_cases h : a.info.priority > arena.info.priority
      · simp only [add_arena_walk, if_pos h]
        refine List.Pairwise.cons ?_ (List.Pairwise.cons ha hrest)
        intro b hb
        rcases List.mem_cons.mp hb with rfl | hb2
        · omega
        · have := ha b hb2
          omega
      · simp only [add_arena_walk, if_neg h]
        refine List.Pairwise.cons ?_ (ih hrest)
        intro b hb
        rw [mem_add_arena_walk] at hb
        rcases hb with rfl | hb
        · omega
        · exact ha b hb

/-- Any fold of registrations over a sorted registry stays sorted. -/
theorem foldl_pmm_add_arena_pairwise :
    ∀ (infos : List PmmArenaInfo) (regs : Registry),
      regs.Pairwise (fun a b => a.info.priority ≤ b.info.priority) →
      (infos.foldl pmm_add_arena regs).Pairwise
        (fun a b => a.info.priority ≤ b.info.priority)
  | [], _, h => h
  | info :: infos, regs, h =>
      foldl_pmm_add_arena_pairwise infos (pmm_add_arena regs info)
        (add_arena_walk_pairwise _ _ h)

/-- The insertion walk in closed form: the new arena goes right after
every registered arena of priority at most its own and right before the
first one of strictly greater priority. -/
theorem add_arena_walk_eq_span (arena : PmmArena) :
    ∀ regs : Registry,
      add_arena_walk arena regs =
        regs.takeWhile
            (fun a => decide (a.info.priority ≤ arena.info.priority)) ++
          arena :: regs.dropWhile
            (fun a => decide (a.info.priority ≤ arena.info.priority)) := by
  intro regs
  induction regs with
  | nil => simp [add_arena_walk]
  | cons a rest ih =>
      by_cases h : a.info.priority > arena.info.priority
      · have hp : ¬ a.info.priority ≤ arena.info.priority := by omega
        simp [add_arena_walk, h, List.takeWhile_cons, List.dropWhile_cons, hp]
      · have hp : a.info.priority ≤ arena.info.priority := by omega
        simp [add_arena_walk, h, List.takeWhile_cons, List.dropWhile_cons, hp, ih]

/-- C5: `pmm_add_arena` puts the new arena immediately before the first
registered arena of strictly greater priority (at the end when none
exists) — so equal-priority arenas stay in registration order — any
sequence of registrations leaves the registry sorted by ascending
priority, and registering priorities 5, 1, 3 yields iteration order
1, 3, 5. -/
theorem pmm_add_arena_priority_order (regs : Registry) (info : PmmArenaInfo)
    (infos : List PmmArenaInfo) :
    pmm_add_arena regs info =
      regs.takeWhile (fun a => decide (a.info.priority ≤ info.priority)) ++
        PmmArena.BootAllocArray info ::
          regs.dropWhile (fun a => decide (a.info.priority ≤ info.priority)) ∧
    (infos.foldl pmm_add_arena []).Pairwise
      (fun a b => a.info.priority ≤ b.info.priority) ∧
    ((([⟨0, PAGE_SIZE, false, 5⟩, ⟨0, PAGE_SIZE, false, 1⟩,
        ⟨0, PAGE_SIZE, false, 3⟩] : List PmmArenaInfo).foldl
        pmm_add_arena []).map (fun a => a.info.priority)) = [1, 3, 5] := by
  exact ⟨add_arena_walk_eq_span (PmmArena.BootAllocArray info) regs,
    foldl_pmm_add_arena_pairwise infos [] (by simp), by decide⟩

/-- The `pmm_alloc_pages` walk, when every earlier arena is either
skipped by the KMAP filter or empty: the first eligible arena with a
free frame supplies the whole (possibly partial) result. -/
theorem pmm_alloc_pages_loop_first :
    ∀ (pre : List PmmArena) (a : PmmArena) (post : List PmmArena)
      (j count : Nat) (kmapOnly : Bool),
      0 < count →
      (∀ b ∈ pre, eligible kmapOnly b = true → b.freeList = []) →
      eligible kmapOnly a = true → a.freeList ≠ [] →
      pmm_alloc_pages_loop (pre ++ a :: post) j count kmapOnly =
        (pre ++ ⟨a.info, a.freeList.drop count⟩ :: post,
         min count a.freeList.length,
         (a.freeList.take count).map (Page.mk (j + pre.length)))
  | [], a, post, j, count, kmapOnly, hc, _, ha, hne => by
      have hlen : 0 < (a.freeList.take count).length := by
        rw [List.length_take]
        have : 0 < a.freeList.length := List.length_pos.mpr hne
        omega
      simp only [List.nil_append, pmm_alloc_pages_loop, ha, if_pos,
        PmmArena.AllocPages, if_true]
      rw [if_pos hlen]
      simp [List.length_take]
  | b :: pre, a, post, j, count, kmapOnly, hc, hpre, ha, hne => by
      have ih := pmm_alloc_pages_loop_first pre a post (j + 1) count kmapOnly hc
        (fun x hx => hpre x (List.mem_cons_of_mem b hx)) ha hne
      have harith : j + (pre.length + 1) = j + 1 + pre.length := by omega
      cases helig : eligible kmapOnly b
      · simp only [List.cons_append, pmm_alloc_pages_loop, helig, Bool.false_eq_true,
          if_false, List.append_eq, ih, List.length_cons, harith]
      · have hb : b.freeList = [] := hpre b (List.mem_cons_self b pre) helig
        have hempty : ¬ (b.freeList.take count).length > 0 := by simp [hb]
        have hbeq : (⟨b.info, b.freeList.drop count⟩ : PmmArena) = b := by
          cases b with
          | mk binfo bfree =>
              simp only [PmmArena.mk.injEq] at hb ⊢
              subst hb
              simp
        simp only [List.cons_append, pmm_alloc_pages_loop, helig, if_true,
          PmmArena.AllocPages, if_neg hempty, hbeq, List.append_eq, ih,
          List.length_cons, harith]

/-- C2: for `count > 0`, `pmm_alloc_pages` stops at the first eligible
arena with any free frame and returns exactly that arena's frames (the
first `count` of its free list, possibly fewer than requested) without
continuing to a later arena: later arenas stay untouched in the
registry. -/
theorem pmm_alloc_pages_stops_at_first_arena (pre post : List PmmArena)
    (a : PmmArena) (count : Nat) (kmapOnly : Bool) (hc : 0 < count)
    (hpre : ∀ b ∈ pre, eligible kmapOnly b = true → b.freeList = [])
    (ha : eligible kmapOnly a = true) (hne : a.freeList ≠ []) :
    pmm_alloc_pages (pre ++ a :: post) count kmapOnly true =
      some (pre ++ ⟨a.info, a.freeList.drop count⟩ :: post,
            min count a.freeList.length,
            (a.freeList.take count).map (Page.mk pre.length)) := by
  have hloop := pmm_alloc_pages_loop_first pre a post 0 count kmapOnly hc hpre ha hne
  simp only [Nat.zero_add] at hloop
  simp [pmm_alloc_pages, Nat.pos_iff_ne_zero.mp hc, hloop]

/-- Witness for C2: the spec's own example — arena A (priority 0, 2 free
frames) before arena B (priority 1, 10 free frames); `pmm_alloc_pages 5`
returns exactly A's 2 frames and leaves B untouched. -/
theorem pmm_alloc_pages_stops_at_first_arena_witness :
    pmm_alloc_pages
        [⟨⟨0, 2 * PAGE_SIZE, false, 0⟩, [0, 1]⟩,
         ⟨⟨1048576, 10 * PAGE_SIZE, false, 1⟩, List.range 10⟩] 5 false true =
      some ([⟨⟨0, 2 * PAGE_SIZE, false, 0⟩, []⟩,
             ⟨⟨1048576, 10 * PAGE_SIZE, false, 1⟩, List.range 10⟩],
            2, [⟨0, 0⟩, ⟨0, 1⟩]) := by
  have h := pmm_alloc_pages_stops_at_first_arena []
      [⟨⟨1048576, 10 * PAGE_SIZE, false, 1⟩, List.range 10⟩]
      ⟨⟨0, 2 * PAGE_SIZE, false, 0⟩, [0, 1]⟩ 5 false (by decide)
      (by simp) (by decide) (by decide)
  exact h.trans (by decide)

/-- The `pmm_alloc_page` walk fails exactly when every eligible arena of
the suffix has an empty free list. -/
theorem pmm_alloc_page_loop_none_iff :
    ∀ (regs : List PmmArena) (j : Nat) (kmapOnly : Bool),
      (pmm_alloc_page_loop regs j kmapOnly).2 = none ↔
        ∀ a ∈ regs, eligible kmapOnly a = true → a.freeList = []
  | [], j, kmapOnly => by simp [pmm_alloc_page_loop]
  | a :: rest, j, kmapOnly => by
      have ih := pmm_alloc_page_loop_none_iff rest (j + 1) kmapOnly
      cases helig : eligible kmapOnly a
      · simp only [pmm_alloc_page_loop, helig, Bool.false_eq_true, if_false]
        simp only [List.mem_cons, forall_eq_or_imp, helig]
        simp [ih]
      · cases hfl : a.freeList with
        | nil =>
            simp only [pmm_alloc_page_loop, helig, if_true, PmmArena.AllocPage, hfl]
            simp only [List.mem_cons, forall_eq_or_imp]
            simp [ih, hfl]
        | cons i rest' =>
            simp only [pmm_alloc_page_loop, helig, if_true, PmmArena.AllocPage, hfl]
            simp [hfl, helig]

/-- The `pmm_alloc_page` walk, when every earlier arena is skipped or
empty: the first eligible arena with a free frame answers with the head
of its free list. -/
theorem pmm_alloc_page_loop_first :
    ∀ (pre : List PmmArena) (a : PmmArena) (post : List PmmArena) (j : Nat)
      (kmapOnly : Bool) (i : Nat) (rest : List Nat),
      (∀ b ∈ pre, eligible kmapOnly b = true → b.freeList = []) →
      eligible kmapOnly a = true → a.freeList = i :: rest →
      pmm_alloc_page_loop (pre ++ a :: post) j kmapOnly =
        (pre ++ ⟨a.info, rest⟩ :: post,
         some (⟨j + pre.length, i⟩, i * PAGE_SIZE + a.info.base))
  | [], a, post, j, kmapOnly, i, rest, _, ha, hfl => by
      simp [pmm_alloc_page_loop, ha, PmmArena.AllocPage, hfl]
  | b :: pre, a, post, j, kmapOnly, i, rest, hpre, ha, hfl => by
      have ih := pmm_alloc_page_loop_first pre a post (j + 1) kmapOnly i rest
        (fun x hx => hpre x (List.mem_cons_of_mem b hx)) ha hfl
      have harith : j + (pre.length + 1) = j + 1 + pre.length := by omega
      cases helig : eligible kmapOnly b
      · simp only [List.cons_append, pmm_alloc_page_loop, helig, Bool.false_eq_true,
          if_false, List.append_eq, ih, List.length_cons, harith]
      · have hb : b.freeList = [] := hpre b (List.mem_cons_self b pre) helig
        simp only [List.cons_append, pmm_alloc_page_loop, helig, if_true,
          PmmArena.AllocPage, hb, List.append_eq, ih, List.length_cons, harith]

/-- C7: `pmm_alloc_page` walks the arenas in priority order, skipping
the non-KMAP ones when the KMAP flag is passed; it fails exactly when
every eligible arena is exhausted, and when the first eligible arena
with a free frame sits after arenas that are all skipped or empty, it
returns that arena's head free frame with its physical address, leaving
every other arena untouched. -/
theorem pmm_alloc_page_first_eligible (regs : Registry) (kmapOnly : Bool) :
    ((pmm_alloc_page regs kmapOnly).2 = none ↔
      ∀ a ∈ regs, eligible kmapOnly a = true → a.freeList = []) ∧
    (∀ pre a post i rest, regs = pre ++ a :: post →
      (∀ b ∈ pre, eligible kmapOnly b = true → b.freeList = []) →
      eligible kmapOnly a = true → a.freeList = i :: rest →
      pmm_alloc_page regs kmapOnly =
        (pre ++ ⟨a.info, rest⟩ :: post,
         some (⟨pre.length, i⟩, i * PAGE_SIZE + a.info.base))) := by
  constructor
  · exact pmm_alloc_page_loop_none_iff regs 0 kmapOnly
  · intro pre a post i rest hsplit hpre ha hfl
    subst hsplit
    have h := pmm_alloc_page_loop_first pre a post 0 kmapOnly i rest hpre ha hfl
    simpa [pmm_alloc_page] using h

/-- Witness for C7: arena 0 is eligible but exhausted, arena 1 supplies
its only frame at physical address PAGE_SIZE. -/
theorem pmm_alloc_page_first_eligible_witness :
    pmm_alloc_page
        [⟨⟨0, PAGE_SIZE, false, 0⟩, []⟩, ⟨⟨PAGE_SIZE, PAGE_SIZE, false, 1⟩, [0]⟩]
        false =
      ([⟨⟨0, PAGE_SIZE, false, 0⟩, []⟩, ⟨⟨PAGE_SIZE, PAGE_SIZE, false, 1⟩, []⟩],
       some (⟨1, 0⟩, PAGE_SIZE)) := by
  have h := (pmm_alloc_page_first_eligible
      [⟨⟨0, PAGE_SIZE, false, 0⟩, []⟩, ⟨⟨PAGE_SIZE, PAGE_SIZE, false, 1⟩, [0]⟩]
      false).2 [⟨⟨0, PAGE_SIZE, false, 0⟩, []⟩] ⟨⟨PAGE_SIZE, PAGE_SIZE, false, 1⟩, [0]⟩
      [] 0 [] rfl (by simp) (by decide) rfl
  exact h.trans (by decide)

/-- When no arena of the suffix owns the handle, the `pmm_free` arena
scan refuses it. -/
theorem pmm_free_scan_none :
    ∀ (regs : Registry) (c : Nat) (p : Page),
      (∀ t a, regs[t]? = some a → p.aid = c + t → a.numPages ≤ p.idx) →
      pmm_free_scan regs c p = none
  | [], _, _, _ => rfl
  | a :: rest, c, p, h => by
      have hbel : a.page_belongs_to_arena c p = false := by
        by_cases hc0 : p.aid = c
        · have hle := h 0 a (by simp) (by omega)
          simp [PmmArena.page_belongs_to_arena, hc0]
          omega
        · simp [PmmArena.page_belongs_to_arena, hc0]
      have ih := pmm_free_scan_none rest (c + 1) p (fun t b ht hp => by
        exact h (t + 1) b (by simpa using ht) (by omega))
      simp [pmm_free_scan, PmmArena.FreePage, hbel, ih]

/-- When the arena at the handle's slot owns an allocated copy of the
frame, the `pmm_free` arena scan frees it exactly there. -/
theorem pmm_free_scan_some :
    ∀ (regs : Registry) (c t : Nat) (a : PmmArena) (p : Page),
      regs[t]? = some a → p.aid = c + t → p.idx < a.numPages →
      a.freeList.contains p.idx = false →
      pmm_free_scan regs c p = some (regs.set t ⟨a.info, p.idx :: a.freeList⟩)
  | [], _, t, _, _, h, _, _, _ => by simp at h
  | b :: rest, c, 0, a, p, h, haid, hidx, hfree => by
      simp at h
      subst h
      have hbel : b.page_belongs_to_arena c p = true := by
        simp [PmmArena.page_belongs_to_arena, hidx]
        omega
      have hmem : p.idx ∉ b.freeList := by simpa using hfree
      simp [pmm_free_scan, PmmArena.FreePage, hbel, hmem]
  | b :: rest, c, t + 1, a, p, h, haid, hidx, hfree => by
      simp at h
      have hbel : b.page_belongs_to_arena c p = false := by
        simp [PmmArena.page_belongs_to_arena]
        omega
      have ih := pmm_free_scan_some rest (c + 1) t a p h (by omega) hidx hfree
      simp [pmm_free_scan, PmmArena.FreePage, hbel, ih]

/-- C4, counterexample to the claim as stated: freeing a frame handle
that belongs to no registered arena (arena slot 1 of a one-arena
registry) is NOT a fatal assert — `pmm_free` runs to completion,
silently skipping the frame and counting 0 frees. -/
theorem pmm_free_unowned_not_fatal_cex :
    (([⟨⟨0, PAGE_SIZE, false, 0⟩, []⟩] : Registry)[(1 : Nat)]? = none) ∧
    pmm_free [⟨⟨0, PAGE_SIZE, false, 0⟩, []⟩] [⟨1, 0⟩] =
      some ([⟨⟨0, PAGE_SIZE, false, 0⟩, []⟩], 0) := by
  exact ⟨rfl, by decide⟩

/-- C4, amended: `pmm_free` hits the fatal DEBUG_ASSERT when a frame of
the list is already free; a frame owned by no registered arena is
silently skipped (nothing freed, nothing counted); a frame owned by the
arena in its slot and currently allocated is freed right there and
counted. -/
theorem pmm_free_asserts_on_free_and_skips_unowned (regs : Registry)
    (p : Page) (rest : List Page) :
    (page_is_free regs p = true → pmm_free regs (p :: rest) = none) ∧
    (page_is_free regs p = false →
      (∀ a, regs[p.aid]? = some a → a.numPages ≤ p.idx) →
      pmm_free regs (p :: rest) = pmm_free regs rest) ∧
    (∀ a, regs[p.aid]? = some a → p.idx < a.numPages →
      a.freeList.contains p.idx = false →
      pmm_free regs (p :: rest) =
        (pmm_free (regs.set p.aid ⟨a.info, p.idx :: a.freeList⟩) rest).map
          (fun r => (r.1, r.2 + 1))) := by
  refine ⟨?_, ?_, ?_⟩
  · intro hfree
    simp [pmm_free, pmm_free_go, hfree]
  · intro hfree hno
    have hscan := pmm_free_scan_none regs 0 p (fun t a ht hp => by
      have htp : t = p.aid := by omega
      subst htp
      exact hno a ht)
    simp [pmm_free, pmm_free_go, hfree, hscan]
  · intro a ha hidx hfl
    have hfree : page_is_free regs p = false := by
      simp only [page_is_free]
      rw [List.get?_eq_getElem?, ha]
      exact hfl
    have hscan := pmm_free_scan_some regs 0 p.aid a p ha (by omega) hidx hfl
    simp [pmm_free, pmm_free_go, hfree, hscan]

/-- Witness for C4 (amended): freeing the allocated frame 0 of a
one-arena registry reinserts it into the free list and counts one
free. -/
theorem pmm_free_asserts_on_free_and_skips_unowned_witness :
    pmm_free [⟨⟨0, PAGE_SIZE, false, 0⟩, []⟩] [⟨0, 0⟩] =
      some ([⟨⟨0, PAGE_SIZE, false, 0⟩, [0]⟩], 1) := by
  have h := (pmm_free_asserts_on_free_and_skips_unowned
      [⟨⟨0, PAGE_SIZE, false, 0⟩, []⟩] ⟨0, 0⟩ []).2.2
      ⟨⟨0, PAGE_SIZE, false, 0⟩, []⟩ (by simp) (by decide) (by decide)
  exact h.trans (by decide)

/-- When some arena of the suffix contains the address, the translation
loop answers out of the first such arena, with the index computed by
that arena's address arithmetic. -/
theorem paddr_to_vm_page_loop_found :
    ∀ (regs : Registry) (c addr : Nat),
      (∃ a ∈ regs, a.address_in_arena addr = true) →
      ∃ t a, regs[t]? = some a ∧ a.address_in_arena addr = true ∧
        paddr_to_vm_page_loop regs c addr =
          some ⟨c + t, (addr - a.info.base) / PAGE_SIZE⟩
  | [], _, _, h => by simp at h
  | b :: rest, c, addr, h => by
      cases hin : b.address_in_arena addr
      · have hrest : ∃ a ∈ rest, a.address_in_arena addr = true := by
          rcases h with ⟨a, ha, hx⟩
          rcases List.mem_cons.mp ha with rfl | ha2
          · rw [hin] at hx
            cases hx
          · exact ⟨a, ha2, hx⟩
        obtain ⟨t, a, h1, h2, h3⟩ := paddr_to_vm_page_loop_found rest (c + 1) addr hrest
        refine ⟨t + 1, a, by simpa using h1, h2, ?_⟩
        have harith : c + 1 + t = c + (t + 1) := by omega
        rw [harith] at h3
        simpa [paddr_to_vm_page_loop, hin] using h3
      · exact ⟨0, b, by simp, hin, by simp [paddr_to_vm_page_loop, hin]⟩

/-- When no arena contains the address, the translation loop answers
NULL. -/
theorem paddr_to_vm_page_loop_not_found :
    ∀ (regs : Registry) (c addr : Nat),
      (∀ a ∈ regs, a.address_in_arena addr = false) →
      paddr_to_vm_page_loop regs c addr = none
  | [], _, _, _ => rfl
  | b :: rest, c, addr, h => by
      have hb := h b (List.mem_cons_self b rest)
      simp only [paddr_to_vm_page_loop, hb, Bool.false_eq_true, if_false]
      exact paddr_to_vm_page_loop_not_found rest (c + 1) addr
        (fun a ha => h a (List.mem_cons_of_mem b ha))

/-- C6, counterexample to the claim as stated: address 1 lies inside the
one registered arena (base 0, one page), yet translating it to a frame
and back yields 0, not 1 — the round trip only holds for page-aligned
addresses. -/
theorem paddr_roundtrip_unaligned_cex :
    (PmmArena.address_in_arena ⟨⟨0, PAGE_SIZE, false, 0⟩, [0]⟩ 1 = true) ∧
    paddr_to_vm_page [⟨⟨0, PAGE_SIZE, false, 0⟩, [0]⟩] 1 = some ⟨0, 0⟩ ∧
    vm_page_to_paddr [⟨⟨0, PAGE_SIZE, false, 0⟩, [0]⟩] ⟨0, 0⟩ = 0 ∧
    (0 : Nat) ≠ 1 := by
  refine ⟨by decide, by decide, by decide, by decide⟩

/-- C6, amended: over a registry of registration-valid arenas
(page-aligned base and size, size > 0), every page-aligned address x
inside some arena survives the round trip — translating x to a frame
and the frame back to an address yields x — and an address inside no
registered arena translates to no frame at all. -/
theorem paddr_roundtrip (regs : Registry) (x : Nat) :
    ((∀ a ∈ regs, PAGE_SIZE ∣ a.info.base ∧ PAGE_SIZE ∣ a.info.size ∧
        0 < a.info.size) →
      PAGE_SIZE ∣ x →
      (∃ a ∈ regs, a.address_in_arena x = true) →
      ∃ p, paddr_to_vm_page regs x = some p ∧ vm_page_to_paddr regs p = x) ∧
    ((∀ a ∈ regs, a.address_in_arena x = false) →
      paddr_to_vm_page regs x = none) := by
  constructor
  · intro hval hx hin
    obtain ⟨t, a, h1, h2, h3⟩ := paddr_to_vm_page_loop_found regs 0 x hin
    have hmem : a ∈ regs := by
      have h1s := List.getElem?_eq_some.mp h1
      obtain ⟨hlt, heq⟩ := h1s
      exact heq ▸ List.getElem_mem hlt
    obtain ⟨hbase, hsize, hpos⟩ := hval a hmem
    have hx2 : a.info.base ≤ x ∧ x ≤ a.info.base + a.info.size - 1 := by
      simpa [PmmArena.address_in_arena] using h2
    have hdvd : PAGE_SIZE ∣ (x - a.info.base) := Nat.dvd_sub' hx hbase
    obtain ⟨q, hq⟩ := hdvd
    obtain ⟨m, hm⟩ := hsize
    have hP : 0 < PAGE_SIZE := by decide
    have hidxq : (x - a.info.base) / PAGE_SIZE = q := by
      rw [hq]
      exact Nat.mul_div_cancel_left q hP
    have hmpos : 0 < m := by
      by_contra hm0
      have : m = 0 := by omega
      rw [this, Nat.mul_zero] at hm
      omega
    have hqm : q < m := by
      have h1q : PAGE_SIZE * q ≤ a.info.size - 1 := by omega
      have : PAGE_SIZE * q < PAGE_SIZE * m := by omega
      exact Nat.lt_of_mul_lt_mul_left this
    have hnum : (x - a.info.base) / PAGE_SIZE < a.numPages := by
      rw [hidxq, PmmArena.numPages, hm]
      rw [Nat.mul_div_cancel_left m hP]
      exact hqm
    have haddr := vm_page_to_paddr_loop_of_get regs 0 t
      ((x - a.info.base) / PAGE_SIZE) a h1 hnum
    refine ⟨⟨0 + t, (x - a.info.base) / PAGE_SIZE⟩, h3, ?_⟩
    rw [vm_page_to_paddr, haddr, hidxq]
    have hqP : q * PAGE_SIZE = x - a.info.base := by
      rw [Nat.mul_comm]
      omega
    omega
  · intro hout
    exact paddr_to_vm_page_loop_not_found regs 0 x hout

/-- Witness for C6 (amended): in a one-page arena at base 0, the aligned
address 0 round-trips through frame translation. -/
theorem paddr_roundtrip_witness :
    ∃ p, paddr_to_vm_page [⟨⟨0, PAGE_SIZE, false, 0⟩, [0]⟩] 0 = some p ∧
      vm_page_to_paddr [⟨⟨0, PAGE_SIZE, false, 0⟩, [0]⟩] p = 0 :=
  (paddr_roundtrip [⟨⟨0, PAGE_SIZE, false, 0⟩, [0]⟩] 0).1 (by decide)
    (Dvd.intro 0 rfl)
    ⟨⟨⟨0, PAGE_SIZE, false, 0⟩, [0]⟩, by simp, by decide⟩

/-- Characterization of the inner `pmm_alloc_range` loop: it allocates
some number `n ≤ rem` of pages at consecutive page-sized addresses from
`address` on, records exactly those pages (indices computed by the
arena's address arithmetic), leaves the arena's identity intact and
stops with the address just past the run; every allocated address was
inside the arena. -/
theorem pmm_alloc_range_inner_spec (j : Nat) :
    ∀ (rem : Nat) (a : PmmArena) (address : Nat) (a2 : PmmArena)
      (addr2 : Nat) (ps : List Page) (n : Nat),
      pmm_alloc_range_inner j true a address rem = (a2, addr2, ps, n) →
      a2.info = a.info ∧ addr2 = address + n * PAGE_SIZE ∧ n ≤ rem ∧
      ps = (List.range n).map
        (fun k => Page.mk j ((address + k * PAGE_SIZE - a.info.base) / PAGE_SIZE)) ∧
      (∀ k, k < n → a.address_in_arena (address + k * PAGE_SIZE) = true) := by
  intro rem
  induction rem with
  | zero =>
      intro a address a2 addr2 ps n heq
      simp only [pmm_alloc_range_inner, Prod.mk.injEq] at heq
      obtain ⟨rfl, rfl, rfl, rfl⟩ := heq
      refine ⟨rfl, by simp, Nat.le_refl 0, by simp, by omega⟩
  | succ m ih =>
      intro a address a2 addr2 ps n heq
      by_cases hin : a.address_in_arena address
      · by_cases hc : a.freeList.contains ((address - a.info.base) / PAGE_SIZE)
        · simp only [pmm_alloc_range_inner, hin, if_true, PmmArena.AllocSpecific,
            hc, List.singleton_append, Prod.mk.injEq] at heq
          obtain ⟨rfl, rfl, rfl, rfl⟩ := heq
          obtain ⟨ih1, ih2, ih3, ih4, ih5⟩ := ih
            ⟨a.info, a.freeList.erase ((address - a.info.base) / PAGE_SIZE)⟩
            (address + PAGE_SIZE)
            (pmm_alloc_range_inner j true
              ⟨a.info, a.freeList.erase ((address - a.info.base) / PAGE_SIZE)⟩
              (address + PAGE_SIZE) m).1
            (pmm_alloc_range_inner j true
              ⟨a.info, a.freeList.erase ((address - a.info.base) / PAGE_SIZE)⟩
              (address + PAGE_SIZE) m).2.1
            (pmm_alloc_range_inner j true
              ⟨a.info, a.freeList.erase ((address - a.info.base) / PAGE_SIZE)⟩
              (address + PAGE_SIZE) m).2.2.1
            (pmm_alloc_range_inner j true
              ⟨a.info, a.freeList.erase ((address - a.info.base) / PAGE_SIZE)⟩
              (address + PAGE_SIZE) m).2.2.2 rfl
          have hshift : ∀ k : Nat,
              address + (k + 1) * PAGE_SIZE = address + PAGE_SIZE + k * PAGE_SIZE := by
            intro k
            rw [Nat.succ_mul]
            omega
          refine ⟨ih1, ?_, by omega, ?_, ?_⟩
          · rw [Nat.succ_mul]
            omega
          · rw [ih4, List.range_succ_eq_map, List.map_cons, List.map_map]
            congr 1
            simp
            intro k _
            rw [hshift k]
          · intro k hk
            cases k with
            | zero => simpa using hin
            | succ k' =>
                have := ih5 k' (by omega)
                rw [hshift k']
                exact this
        · simp only [pmm_alloc_range_inner, hin, if_true, PmmArena.AllocSpecific,
            hc, Bool.false_eq_true, if_false, Prod.mk.injEq] at heq
          obtain ⟨rfl, rfl, rfl, rfl⟩ := heq
          refine ⟨rfl, by simp, by omega, by simp, by omega⟩
      · simp only [pmm_alloc_range_inner, hin, Bool.false_eq_true, if_false,
          Prod.mk.injEq] at heq
        obtain ⟨rfl, rfl, rfl, rfl⟩ := heq
        refine ⟨rfl, by simp, by omega, by simp, by omega⟩

/-- Characterization of the outer `pmm_alloc_range` walk: at most `rem`
pages come back, with exactly one recorded page per allocated frame; the
walk never changes any arena's identity (per-slot infos are preserved);
and the `k`-th recorded page is the frame of address
`address + k * PAGE_SIZE`, computed by the address arithmetic of an
arena that contains that address — the allocated addresses are exactly
consecutive pages from `address` on. -/
theorem pmm_alloc_range_loop_spec :
    ∀ (regs : Registry) (j address rem : Nat) (regs2 : Registry)
      (ps : List Page) (n : Nat),
      pmm_alloc_range_loop true regs j address rem = (regs2, ps, n) →
      n ≤ rem ∧ ps.length = n ∧
      (∀ t : Nat, (regs2[t]?).map PmmArena.info = (regs[t]?).map PmmArena.info) ∧
      (∀ k (hk : k < ps.length), ∃ t a,
        regs[t]? = some a ∧
        ps.get ⟨k, hk⟩ =
          ⟨j + t, (address + k * PAGE_SIZE - a.info.base) / PAGE_SIZE⟩ ∧
        a.address_in_arena (address + k * PAGE_SIZE) = true)
  | [], j, address, rem, regs2, ps, n, heq => by
      simp only [pmm_alloc_range_loop, Prod.mk.injEq] at heq
      obtain ⟨rfl, rfl, rfl⟩ := heq
      exact ⟨by omega, rfl, fun t => rfl, by intro k hk; simp at hk⟩
  | a :: rest, j, address, rem, regs2, ps, n, heq => by
      rcases hr : pmm_alloc_range_inner j true a address rem with ⟨a1, r1⟩
      rcases r1 with ⟨addr1, r2⟩
      rcases r2 with ⟨ps1, n1⟩
      obtain ⟨hi1, hi2, hi3, hi4, hi5⟩ :=
        pmm_alloc_range_inner_spec j rem a address a1 addr1 ps1 n1 hr
      have hlen1 : ps1.length = n1 := by simp [hi4]
      by_cases h0 : rem - n1 = 0
      · simp only [pmm_alloc_range_loop, hr, h0, if_true, Prod.mk.injEq] at heq
        obtain ⟨rfl, rfl, rfl⟩ := heq
        refine ⟨hi3, hlen1, ?_, ?_⟩
        · intro t
          cases t with
          | zero => simp [hi1]
          | succ t' => simp
        · intro k hk
          refine ⟨0, a, by simp, ?_, hi5 k (by omega)⟩
          have hget : ps1.get ⟨k, hk⟩ =
              Page.mk j ((address + k * PAGE_SIZE - a.info.base) / PAGE_SIZE) := by
            simp only [hi4, List.get_eq_getElem, List.getElem_map,
              List.getElem_range]
          rw [hget]
          simp
      · rcases hs : pmm_alloc_range_loop true rest (j + 1) addr1 (rem - n1) with
          ⟨regsB, sB⟩
        rcases sB with ⟨ps2, n2⟩
        obtain ⟨ihA, ihB, ihC, ihD⟩ :=
          pmm_alloc_range_loop_spec rest (j + 1) addr1 (rem - n1) regsB ps2 n2 hs
        simp only [pmm_alloc_range_loop, hr, h0, if_false, hs, Prod.mk.injEq] at heq
        obtain ⟨rfl, rfl, rfl⟩ := heq
        have hlen : (ps1 ++ ps2).length = n1 + n2 := by
          simp [hlen1, ihB]
        refine ⟨by omega, hlen, ?_, ?_⟩
        · intro t
          cases t with
          | zero => simp [hi1]
          | succ t' => simpa using ihC t'
        · intro k hk
          by_cases hk1 : k < ps1.length
          · refine ⟨0, a, by simp, ?_, hi5 k (by omega)⟩
            have hget : (ps1 ++ ps2).get ⟨k, hk⟩ = ps1.get ⟨k, hk1⟩ := by
              simp [List.get_eq_getElem, List.getElem_append_left hk1]
            rw [hget]
            have hget2 : ps1.get ⟨k, hk1⟩ =
                Page.mk j ((address + k * PAGE_SIZE - a.info.base) / PAGE_SIZE) := by
              simp only [hi4, List.get_eq_getElem, List.getElem_map,
                List.getElem_range]
            rw [hget2]
            simp
          · have hk2 : k - ps1.length < ps2.length := by
              have := List.length_append ps1 ps2
              omega
            obtain ⟨t, b, hb1, hb2, hb3⟩ := ihD (k - ps1.length) hk2
            have hsplit : address + k * PAGE_SIZE =
                addr1 + (k - ps1.length) * PAGE_SIZE := by
              rw [hi2, hlen1]
              have hmul : k * PAGE_SIZE =
                  n1 * PAGE_SIZE + (k - n1) * PAGE_SIZE := by
                rw [← Nat.add_mul]
                congr 1
                omega
              omega
            refine ⟨t + 1, b, by simpa using hb1, ?_, ?_⟩
            · have hget : (ps1 ++ ps2).get ⟨k, hk⟩ =
                  ps2.get ⟨k - ps1.length, hk2⟩ := by
                simp [List.get_eq_getElem,
                  List.getElem_append_right (by omega : ps1.length ≤ k)]
              rw [hget, hb2, hsplit]
              have : j + 1 + t = j + (t + 1) := by omega
              rw [this]
            · rw [hsplit]
              exact hb3

/-- For a registration-valid arena (page-aligned base and size, size
positive) and a page-aligned in-arena address, the frame index computed
by the arena's arithmetic is inside the page array and maps back to the
same address. -/
theorem in_arena_index_bound (a : PmmArena) (x : Nat)
    (hb : PAGE_SIZE ∣ a.info.base) (hs : PAGE_SIZE ∣ a.info.size)
    (hpos : 0 < a.info.size) (hx : PAGE_SIZE ∣ x)
    (hin : a.address_in_arena x = true) :
    (x - a.info.base) / PAGE_SIZE < a.numPages ∧
    ((x - a.info.base) / PAGE_SIZE) * PAGE_SIZE + a.info.base = x := by
  have hx2 : a.info.base ≤ x ∧ x ≤ a.info.base + a.info.size - 1 := by
    simpa [PmmArena.address_in_arena] using hin
  obtain ⟨q, hq⟩ := Nat.dvd_sub' hx hb
  obtain ⟨m, hm⟩ := hs
  have hP : 0 < PAGE_SIZE := by decide
  have hidxq : (x - a.info.base) / PAGE_SIZE = q := by
    rw [hq]
    exact Nat.mul_div_cancel_left q hP
  have hmpos : 0 < m := by
    by_contra hm0
    have hz : m = 0 := by omega
    rw [hz, Nat.mul_zero] at hm
    omega
  have hqm : q < m := by
    have h1q : PAGE_SIZE * q ≤ a.info.size - 1 := by omega
    have h2q : PAGE_SIZE * q < PAGE_SIZE * m := by omega
    exact Nat.lt_of_mul_lt_mul_left h2q
  constructor
  · rw [hidxq, PmmArena.numPages, hm, Nat.mul_div_cancel_left m hP]
    exact hqm
  · rw [hidxq]
    have hqP : q * PAGE_SIZE = x - a.info.base := by
      rw [Nat.mul_comm]
      omega
    omega

/-- C3, counterexample to the claim as stated: with a single one-page
arena at base 0, `pmm_alloc_range` called at the unaligned start address
1 rounds down and returns the frame at physical address 0 — outside
`[start, start + count * PAGE_SIZE)` for `start = 1`. -/
theorem pmm_alloc_range_outside_start_cex :
    pmm_alloc_range [⟨⟨0, PAGE_SIZE, false, 0⟩, [0]⟩] 1 1 true =
      ([⟨⟨0, PAGE_SIZE, false, 0⟩, []⟩], 1, [⟨0, 0⟩]) ∧
    vm_page_to_paddr [⟨⟨0, PAGE_SIZE, false, 0⟩, []⟩] ⟨0, 0⟩ = 0 ∧
    ¬ (1 ≤ 0) := by
  refine ⟨by decide, by decide, by decide⟩

/-- C3, amended: over registration-valid arenas, `pmm_alloc_range`
returns at most `count` frames, and the `k`-th returned frame's physical
address is exactly `ROUNDDOWN(start) + k * PAGE_SIZE` — consecutive
pages from the rounded-down start, never leaving
`[ROUNDDOWN(start), ROUNDDOWN(start) + count * PAGE_SIZE)`; and on the
spec's example (pages [0,10) with page 3 pre-allocated) the call stops
at the first already-allocated page, returning exactly pages 0, 1, 2
with count 3. -/
theorem pmm_alloc_range_bounded (regs : Registry) (start count : Nat)
    (listP : Bool) (regs2 : Registry) (n : Nat) (ps : List Page)
    (hval : ∀ a ∈ regs, PAGE_SIZE ∣ a.info.base ∧ PAGE_SIZE ∣ a.info.size ∧
      0 < a.info.size)
    (heq : pmm_alloc_range regs start count listP = (regs2, n, ps)) :
    n ≤ count ∧
    (∀ k (hk : k < ps.length),
      vm_page_to_paddr regs2 (ps.get ⟨k, hk⟩) =
        ROUNDDOWN_PAGE start + k * PAGE_SIZE ∧
      ROUNDDOWN_PAGE start ≤ vm_page_to_paddr regs2 (ps.get ⟨k, hk⟩) ∧
      vm_page_to_paddr regs2 (ps.get ⟨k, hk⟩) <
        ROUNDDOWN_PAGE start + count * PAGE_SIZE) ∧
    pmm_alloc_range
        [⟨⟨0, 10 * PAGE_SIZE, false, 0⟩, [0, 1, 2, 4, 5, 6, 7, 8, 9]⟩]
        0 10 true =
      ([⟨⟨0, 10 * PAGE_SIZE, false, 0⟩, [4, 5, 6, 7, 8, 9]⟩], 3,
       [⟨0, 0⟩, ⟨0, 1⟩, ⟨0, 2⟩]) := by
  have hexample : pmm_alloc_range
      [⟨⟨0, 10 * PAGE_SIZE, false, 0⟩, [0, 1, 2, 4, 5, 6, 7, 8, 9]⟩]
      0 10 true =
      ([⟨⟨0, 10 * PAGE_SIZE, false, 0⟩, [4, 5, 6, 7, 8, 9]⟩], 3,
       [⟨0, 0⟩, ⟨0, 1⟩, ⟨0, 2⟩]) := by decide
  by_cases hc : count = 0
  · subst hc
    simp only [pmm_alloc_range, if_pos rfl, Prod.mk.injEq] at heq
    obtain ⟨rfl, rfl, rfl⟩ := heq
    exact ⟨Nat.le_refl 0, by intro k hk; simp at hk, hexample⟩
  · have hmain : ∀ (regsL : Registry) (psL : List Page) (nL : Nat),
        pmm_alloc_range_loop true regs 0 (ROUNDDOWN_PAGE start) count =
          (regsL, psL, nL) →
        nL ≤ count ∧
        (∀ k (hk : k < psL.length),
          vm_page_to_paddr regsL (psL.get ⟨k, hk⟩) =
            ROUNDDOWN_PAGE start + k * PAGE_SIZE ∧
          ROUNDDOWN_PAGE start ≤ vm_page_to_paddr regsL (psL.get ⟨k, hk⟩) ∧
          vm_page_to_paddr regsL (psL.get ⟨k, hk⟩) <
            ROUNDDOWN_PAGE start + count * PAGE_SIZE) := by
      intro regsL psL nL hl
      obtain ⟨hA, hB, hC, hD⟩ :=
        pmm_alloc_range_loop_spec regs 0 (ROUNDDOWN_PAGE start) count
          regsL psL nL hl
      refine ⟨hA, ?_⟩
      intro k hk
      obtain ⟨t, a, h1, h2, h3⟩ := hD k hk
      have hmem : a ∈ regs := by
        have h1s := List.getElem?_eq_some.mp h1
        obtain ⟨hlt, heqa⟩ := h1s
        exact heqa ▸ List.getElem_mem hlt
      obtain ⟨hab, has, hap⟩ := hval a hmem
      have hP : 0 < PAGE_SIZE := by decide
      have hrddvd : PAGE_SIZE ∣ ROUNDDOWN_PAGE start :=
        Dvd.intro (start / PAGE_SIZE) (Nat.mul_comm _ _)
      have hAdvd : PAGE_SIZE ∣ (ROUNDDOWN_PAGE start + k * PAGE_SIZE) :=
        Nat.dvd_add hrddvd (Dvd.intro k (Nat.mul_comm _ _))
      obtain ⟨hlt, hback⟩ := in_arena_index_bound a
        (ROUNDDOWN_PAGE start + k * PAGE_SIZE) hab has hap hAdvd h3
      have hinfo2 : (regsL[t]?).map PmmArena.info = some a.info := by
        rw [hC t, h1]
        rfl
      rcases ha2 : regsL[t]? with _ | a2
      · rw [ha2] at hinfo2
        simp at hinfo2
      · have ha2info : a2.info = a.info := by
          rw [ha2] at hinfo2
          simpa using hinfo2
        have hnum2 : ((ROUNDDOWN_PAGE start + k * PAGE_SIZE) - a.info.base) /
            PAGE_SIZE < a2.numPages := by
          rw [PmmArena.numPages, ha2info]
          exact hlt
        have haddr := vm_page_to_paddr_loop_of_get regsL 0 t
          (((ROUNDDOWN_PAGE start + k * PAGE_SIZE) - a.info.base) / PAGE_SIZE)
          a2 ha2 hnum2
        have hpg : vm_page_to_paddr regsL (psL.get ⟨k, hk⟩) =
            ROUNDDOWN_PAGE start + k * PAGE_SIZE := by
          rw [h2]
          have hconc : (((ROUNDDOWN_PAGE start + k * PAGE_SIZE) - a.info.base) /
              PAGE_SIZE) * PAGE_SIZE + a2.info.base =
              ROUNDDOWN_PAGE start + k * PAGE_SIZE := by
            rw [ha2info]
            exact hback
          exact haddr.trans hconc
        refine ⟨hpg, ?_, ?_⟩
        · rw [hpg]
          omega
        · rw [hpg]
          have hkc : k < count := by
            rw [hB] at hk
            omega
          have hstep : (k + 1) * PAGE_SIZE ≤ count * PAGE_SIZE :=
            Nat.mul_le_mul_right PAGE_SIZE (by omega)
          have hsm : (k + 1) * PAGE_SIZE = k * PAGE_SIZE + PAGE_SIZE := by
            rw [Nat.succ_mul]
          omega
    cases listP
    · rcases hl : pmm_alloc_range_loop true regs 0 (ROUNDDOWN_PAGE start) count
        with ⟨regsL, sL⟩
      rcases sL with ⟨psL, nL⟩
      have hfalse := pmm_alloc_range_loop_false regs 0 (ROUNDDOWN_PAGE start) count
      rw [hl] at hfalse
      simp only [pmm_alloc_range, hc, if_false, hfalse, Prod.mk.injEq] at heq
      obtain ⟨rfl, rfl, rfl⟩ := heq
      obtain ⟨hA, _⟩ := hmain regsL psL nL hl
      exact ⟨hA, by intro k hk; simp at hk, hexample⟩
    · rcases hl : pmm_alloc_range_loop true regs 0 (ROUNDDOWN_PAGE start) count
        with ⟨regsL, sL⟩
      rcases sL with ⟨psL, nL⟩
      simp only [pmm_alloc_range, hc, if_false, hl, Prod.mk.injEq] at heq
      obtain ⟨rfl, rfl, rfl⟩ := heq
      obtain ⟨hA, hK⟩ := hmain regsL psL nL hl
      exact ⟨hA, hK, hexample⟩

/-- Witness for C3 (amended): on the spec's gap example the call
returns 3 ≤ 10 frames and the frame recorded second sits at physical
address `ROUNDDOWN(0) + 1 * PAGE_SIZE`. -/
theorem pmm_alloc_range_bounded_witness :
    (3 : Nat) ≤ 10 ∧
    vm_page_to_paddr [⟨⟨0, 10 * PAGE_SIZE, false, 0⟩, [4, 5, 6, 7, 8, 9]⟩]
        (⟨0, 1⟩ : Page) = ROUNDDOWN_PAGE 0 + 1 * PAGE_SIZE := by
  have h := pmm_alloc_range_bounded
      [⟨⟨0, 10 * PAGE_SIZE, false, 0⟩, [0, 1, 2, 4, 5, 6, 7, 8, 9]⟩] 0 10 true
      [⟨⟨0, 10 * PAGE_SIZE, false, 0⟩, [4, 5, 6, 7, 8, 9]⟩] 3
      [⟨0, 0⟩, ⟨0, 1⟩, ⟨0, 2⟩] (by decide) (by decide)
  refine ⟨h.1, ?_⟩
  have h2 := (h.2.1 1 (by decide)).1
  simpa using h2
